import Mathlib

/-!
Verification of the PocketFlow Python bridge kernel
(`src/kernel/py/pocketflow_utils.py`): a shallow embedding of the
work-unit / retry / flow-orchestration core, with theorems settling the
specified routing, retry, parameter-propagation and termination claims.

Modelling conventions:
* Python dicts with string keys are association lists with unique keys
  (insertion order preserved, as in CPython); `assocGet`, `assocSet`,
  `assocHas` mirror `d.get(k)`, `d[k] = v`, `k in d`.
* A node reference is a `Nat` identifier; a graph is a total function
  from identifiers to node data (object references always resolve).
* `print`-based warnings are modelled as explicit warning values in the
  return type.
* Python exceptions are explicit result constructors.
* The unbounded `while` loop of `Flow._orch` is modelled with fuel.
-/

/-- Lookup in an association list, mirroring Python `dict.get(k)`. -/
def assocGet {α : Type} (l : List (String × α)) (k : String) : Option α :=
  match l with
  | [] => none
  | (k2, v) :: rest => if k2 = k then some v else assocGet rest k

/-- Membership test, mirroring Python `k in dict`. -/
def assocHas {α : Type} (l : List (String × α)) (k : String) : Bool :=
  match l with
  | [] => false
  | (k2, _) :: rest => k2 = k || assocHas rest k

/-- Update-or-append, mirroring Python `d[k] = v` on an insertion-ordered
dict: an existing key keeps its position, a new key goes to the end. -/
def assocSet {α : Type} (l : List (String × α)) (k : String) (v : α) :
    List (String × α) :=
  match l with
  | [] => [(k, v)]
  | (k2, v2) :: rest =>
    if k2 = k then (k, v) :: rest else (k2, v2) :: assocSet rest k v

/-- Keys of a successor mapping, mirroring `list(d.keys())`. -/
def assocKeys {α : Type} (l : List (String × α)) : List String :=
  l.map Prod.fst

/-- A routing warning: the action that failed to match and the labels that
were available (`Flow.get_next_node`, line 145 of the source). -/
structure RouteWarning where
  action : Option String
  available : List String
deriving DecidableEq, Repr

/-- Key used for the exact-match lookup: Python's `action or "default"`
(line 133) maps both `None` and the empty string to `"default"`, since
both are falsy. -/
def route_key (action : Option String) : String :=
  match action with
  | none => "default"
  | some a => if a = "" then "default" else a

/-- Successor selection of `Flow.get_next_node` (lines 132-141): exact
lookup under `key`, then the single-successor fallback
(`list(current.successors.values())[0]` when exactly one edge exists),
then the `"default"` fallback. -/
def route_pick (succ : List (String × Nat)) (key : String) : Option Nat :=
  let n0 := assocGet succ key
  let n1 := if n0 = none ∧ succ.length = 1
    then (succ.get? 0).map Prod.snd else n0
  if n1 = none then assocGet succ "default" else n1

/-- Embedding of `Flow.get_next_node` (pocketflow_utils.py lines 131-147).
The first component is the chosen successor; the second is the warning
printed at line 145 when the unit has successors but none was selected. -/
def get_next_node (succ : List (String × Nat)) (action : Option String) :
    Option Nat × Option RouteWarning :=
  let next := route_pick succ (route_key action)
  (next, if next = none ∧ succ ≠ []
    then some ⟨action, assocKeys succ⟩ else none)

/-- Result of `Node._exec` as seen by its caller: a normal return value, a
propagated exception, or Python's implicit `None` (the `for` loop body
never ran, so the function fell off the end). -/
inductive ExecResult (E A : Type) where
  | value (a : A)
  | raised (e : E)
  | nothing
deriving DecidableEq, Repr

/-- Embedding of the default `Node.exec_fallback` (lines 105-107): re-raise
the final exception unchanged. -/
def exec_fallback {E A : Type} (e : E) : ExecResult E A :=
  ExecResult.raised e

/-- Embedding of `Node._exec`'s retry loop (lines 109-118) starting at loop
index `retry`.  `compute k` is the outcome of the `self.exec` call on loop
index `k` (`Except.error` models a raised exception).  Returns the loop's
result, the number of `exec` invocations made, and the list of exceptions
passed to the fallback hook.  The `time.sleep(self.wait)` between attempts
has no observable effect in this model. -/
def node_exec_from {E A : Type} (compute : Nat → Except E A)
    (fallback : E → ExecResult E A) (maxRetries : Nat) (retry : Nat) :
    ExecResult E A × Nat × List E :=
  if _h : retry < maxRetries then
    match compute retry with
    | Except.ok a => (ExecResult.value a, 1, [])
    | Except.error e =>
      if retry = maxRetries - 1 then (fallback e, 1, [e])
      else
        let r := node_exec_from compute fallback maxRetries (retry + 1)
        (r.1, r.2.1 + 1, r.2.2)
  else (ExecResult.nothing, 0, [])
termination_by maxRetries - retry
decreasing_by omega

/-- Embedding of `Node._exec` (lines 109-118): the retry loop from index 0,
as `for retry in range(self.max_retries)` runs it. -/
def node_exec {E A : Type} (compute : Nat → Except E A)
    (fallback : E → ExecResult E A) (maxRetries : Nat) :
    ExecResult E A × Nat × List E :=
  node_exec_from compute fallback maxRetries 0

/-- State of a work unit relevant to `set_params`: its parameter mapping
(`BaseNode.__init__`, lines 38-40). -/
structure PNode (V : Type) where
  params : List (String × V)
  successors : List (String × Nat)

/-- Embedding of `BaseNode.set_params` (lines 42-43): `self.params = params`,
a wholesale replacement. -/
def set_params {V : Type} (n : PNode V) (params : List (String × V)) :
    PNode V :=
  { n with params := params }

/-- Embedding of `BaseNode.next` (lines 45-49): warn when the action label
is already registered, then overwrite.  First component: the updated edge
mapping; second: whether the overwrite warning was printed.  (The method
also returns the target node to enable chaining; `ConditionalTransition`'s
`__rshift__`, line 94-95, calls this same method.) -/
def node_next (succ : List (String × Nat)) (action : String) (target : Nat) :
    List (String × Nat) × Bool :=
  (assocSet succ action target, assocHas succ action)

/-- A work unit as the orchestrator sees it: its outgoing edge mapping and
its `_run` lifecycle (prep, then `_exec`, then post) collapsed into one
function from the propagated parameters and the shared state to the
returned action label and the updated shared state. -/
structure GNode (V : Type) where
  successors : List (String × Nat)
  run : List (String × V) → List (String × V) → Option String × List (String × V)

/-- Embedding of the `while current:` loop of `Flow._orch` (lines 157-160),
with fuel for the unbounded loop.  Returns `none` when fuel runs out,
otherwise the last captured action label, the final shared state, the
routing warnings emitted, and the nodes run in order. -/
def orchLoop {V : Type} (g : Nat → GNode V) (p : List (String × V)) :
    Nat → Nat → List (String × V) →
    Option (Option String × List (String × V) × List RouteWarning × List Nat)
  | 0, _, _ => none
  | fuel + 1, cur, sh =>
    let step := (g cur).run p sh
    let route := get_next_node (g cur).successors step.1
    match route.1 with
    | none => some (step.1, step.2, route.2.toList, [cur])
    | some nxt =>
      match orchLoop g p fuel nxt step.2 with
      | none => none
      | some (a, sh2, ws, vs) =>
        some (a, sh2, route.2.toList ++ ws, cur :: vs)

/-- Outcome of `Flow._run` (lines 173-176): a raised exception together
with the shared state at the moment of the raise and the nodes that had
run, or normal completion, or fuel exhaustion of the model. -/
inductive RunResult (V : Type) where
  | raised (msg : String) (sh : List (String × V)) (visited : List Nat)
  | done (action : Option String) (sh : List (String × V))
      (warnings : List RouteWarning) (visited : List Nat)
  | fuelOut

/-- Embedding of `Flow._run` (lines 173-176) on top of `_orch`
(lines 149-162): `Flow.prep` returns `None` and does not touch the shared
state (lines 164-165); `_orch` raises `ValueError("Start node not set")`
when the start node is unset (lines 150-151), else runs the loop with
`p = {**self.params}`; `Flow.post` returns the orchestration result
unchanged (lines 170-171). -/
def flow_run {V : Type} (g : Nat → GNode V) (start : Option Nat)
    (flowParams : List (String × V)) (sh : List (String × V)) (fuel : Nat) :
    RunResult V :=
  match start with
  | none => RunResult.raised "Start node not set" sh []
  | some s =>
    match orchLoop g flowParams fuel s sh with
    | none => RunResult.fuelOut
    | some (a, sh2, ws, vs) => RunResult.done a sh2 ws vs

/-- A `Flow` used as a node inside an outer graph: its `_run` is
`prep` (identity, returns `None`), then `_orch` over its inner graph with
the parameters the outer orchestrator propagated into it, then `post`
(returns the orchestration result unchanged).  `innerFuel` is a model
bound on the inner loop; with insufficient fuel the model returns the
shared state unchanged (theorems always supply sufficient fuel). -/
def flowAsNode {V : Type} (inner : Nat → GNode V) (innerStart : Nat)
    (innerFuel : Nat) (outerSucc : List (String × Nat)) : GNode V :=
  { successors := outerSucc
    run := fun p sh =>
      match orchLoop inner p innerFuel innerStart sh with
      | some (a, sh2, _, _) => (a, sh2)
      | none => (none, sh) }

/-- Concrete graph for instantiations: node 0 has edges `"x"` and `"y"` but
its lifecycle returns the unmatched label `"z"`. -/
def exDeadEnd : Nat → GNode String := fun i =>
  if i = 0 then
    { successors := [("x", 1), ("y", 2)]
      run := fun _ sh => (some "z", sh) }
  else
    { successors := [], run := fun _ sh => (none, sh) }

/-- Concrete inner graph for sub-flow instantiations: a two-node chain that
writes to the shared state and ends with action `"subdone"`. -/
def exInner : Nat → GNode String := fun i =>
  if i = 0 then
    { successors := [("default", 1)]
      run := fun _ sh => (some "sub1", ("k", "v") :: sh) }
  else
    { successors := [], run := fun _ sh => (some "subdone", sh) }

/-- Concrete outer graph whose node 0 is `exInner` wrapped as a sub-flow
node, routed on `"subdone"` to node 1. -/
def exOuter : Nat → GNode String := fun i =>
  if i = 0 then flowAsNode exInner 0 2 [("subdone", 1)]
  else { successors := [], run := fun _ sh => (some "end", sh) }

/-- Concrete acyclic two-node chain for the termination instantiation. -/
def exChain : Nat → GNode String := fun i =>
  if i = 0 then
    { successors := [("default", 1)], run := fun _ sh => (some "go", sh) }
  else
    { successors := [], run := fun _ sh => (some "done", sh) }

/-- Ranking function witnessing that `exChain` is acyclic. -/
def exRank : Nat → Nat := fun i => if i = 0 then 1 else 0

/-! Helper lemmas about association lists. -/

lemma assocGet_mem {α : Type} (l : List (String × α)) (k : String) (v : α)
    (h : assocGet l k = some v) : (k, v) ∈ l := by
  induction l with
  | nil => simp [assocGet] at h
  | cons hd tl ih =>
    obtain ⟨k2, v2⟩ := hd
    simp only [assocGet] at h
    by_cases hk : k2 = k
    · subst hk
      simp at h
      subst h
      exact List.mem_cons_self _ _
    · simp [hk] at h
      exact List.mem_cons_of_mem _ (ih h)

lemma assocGet_none_of_not_has {α : Type} (l : List (String × α)) (k : String)
    (h : assocHas l k = false) : assocGet l k = none := by
  induction l with
  | nil => rfl
  | cons hd tl ih =>
    obtain ⟨k2, v2⟩ := hd
    simp only [assocHas, Bool.or_eq_false_iff] at h
    simp only [assocGet]
    rw [if_neg (by simpa using h.1)]
    exact ih h.2

lemma not_mem_keys_of_not_has {α : Type} (l : List (String × α)) (k : String)
    (h : assocHas l k = false) : k ∉ assocKeys l := by
  induction l with
  | nil => simp [assocKeys]
  | cons hd tl ih =>
    obtain ⟨k2, v2⟩ := hd
    simp only [assocHas, Bool.or_eq_false_iff] at h
    simp only [assocKeys, List.map_cons, List.mem_cons]
    rintro (rfl | hmem)
    · simp at h
    · exact ih h.2 hmem

lemma assocGet_assocSet_self {α : Type} (l : List (String × α)) (k : String)
    (v : α) : assocGet (assocSet l k v) k = some v := by
  induction l with
  | nil => simp [assocSet, assocGet]
  | cons hd tl ih =>
    obtain ⟨k2, v2⟩ := hd
    simp only [assocSet]
    by_cases hk : k2 = k
    · simp [hk, assocGet]
    · simp [hk, assocGet, ih]

lemma assocGet_assocSet_ne {α : Type} (l : List (String × α)) (k b : String)
    (v : α) (hb : b ≠ k) : assocGet (assocSet l k v) b = assocGet l b := by
  induction l with
  | nil => simp [assocSet, assocGet, Ne.symm hb]
  | cons hd tl ih =>
    obtain ⟨k2, v2⟩ := hd
    simp only [assocSet]
    by_cases hk : k2 = k
    · subst hk
      simp [assocGet, Ne.symm hb]
    · simp [hk, assocGet, ih]

lemma assocKeys_cons {α : Type} (a : String) (b : α) (l : List (String × α)) :
    assocKeys ((a, b) :: l) = a :: assocKeys l := rfl

lemma assocKeys_assocSet {α : Type} (l : List (String × α)) (k : String)
    (v : α) : assocKeys (assocSet l k v) =
      if assocHas l k then assocKeys l else assocKeys l ++ [k] := by
  induction l with
  | nil => simp [assocSet, assocHas, assocKeys]
  | cons hd tl ih =>
    obtain ⟨k2, v2⟩ := hd
    by_cases hk : k2 = k
    · subst hk
      simp [assocSet, assocHas, assocKeys]
    · have hhas : assocHas ((k2, v2) :: tl) k = assocHas tl k := by
        simp [assocHas, hk]
      have hset : assocSet ((k2, v2) :: tl) k v = (k2, v2) :: assocSet tl k v := by
        simp [assocSet, hk]
      rw [hhas, hset, assocKeys_cons, assocKeys_cons, ih]
      by_cases ht : assocHas tl k <;> simp [ht]

lemma nodup_keys_assocSet {α : Type} (l : List (String × α)) (k : String)
    (v : α) (h : (assocKeys l).Nodup) :
    (assocKeys (assocSet l k v)).Nodup := by
  rw [assocKeys_assocSet]
  by_cases hk : assocHas l k
  · simpa [hk] using h
  · rw [if_neg (by simp [hk])]
    have hnm := not_mem_keys_of_not_has l k (by simpa using hk)
    simp [List.nodup_append, h, List.disjoint_singleton, hnm]

lemma get?_zero_mem {α : Type} (l : List α) (a : α) (h : l.get? 0 = some a) :
    a ∈ l := by
  cases l with
  | nil => simp at h
  | cons hd tl =>
    simp at h
    simp [h]

/-! Helper lemmas about the routing rule. -/

lemma get_next_node_fst (succ : List (String × Nat)) (act : Option String) :
    (get_next_node succ act).1 = route_pick succ (route_key act) := rfl

lemma get_next_node_snd (succ : List (String × Nat)) (act : Option String) :
    (get_next_node succ act).2 =
      if route_pick succ (route_key act) = none ∧ succ ≠ []
      then some ⟨act, assocKeys succ⟩ else none := rfl

lemma route_pick_exact (succ : List (String × Nat)) (key : String) (t : Nat)
    (h : assocGet succ key = some t) : route_pick succ key = some t := by
  simp [route_pick, h]

lemma route_pick_single (l : String) (t : Nat) (key : String) :
    route_pick [(l, t)] key = some t := by
  by_cases hl : l = key <;> simp [route_pick, assocGet, hl]

lemma route_pick_mem (succ : List (String × Nat)) (key : String) (j : Nat)
    (h : route_pick succ key = some j) : ∃ l2, (l2, j) ∈ succ := by
  simp only [route_pick] at h
  split at h
  · split at h
    · exact ⟨"default", assocGet_mem _ _ _ h⟩
    · cases hg : succ.get? 0 with
      | none =>
        rw [hg] at h
        simp at h
      | some pr =>
        obtain ⟨l2, j2⟩ := pr
        rw [hg] at h
        simp at h
        subst h
        exact ⟨l2, get?_zero_mem _ _ hg⟩
  · split at h
    · exact ⟨"default", assocGet_mem _ _ _ h⟩
    · exact ⟨key, assocGet_mem _ _ _ h⟩

/-! Helper lemmas about the retry loop of `Node._exec`. -/

lemma node_exec_from_all_fail {E A : Type} (compute : Nat → Except E A)
    (fallback : E → ExecResult E A) (err : Nat → E) (maxR : Nat) :
    ∀ d retry, maxR - retry = d + 1 → retry < maxR →
    (∀ j, retry ≤ j → j < maxR → compute j = Except.error (err j)) →
    node_exec_from compute fallback maxR retry =
      (fallback (err (maxR - 1)), maxR - retry, [err (maxR - 1)]) := by
  intro d
  induction d with
  | zero =>
    intro retry hd hlt hfail
    have hlast : retry = maxR - 1 := by omega
    have hc := hfail retry le_rfl hlt
    rw [node_exec_from, dif_pos hlt, hc]
    have h1 : maxR - retry = 1 := by omega
    simp [hlast, h1]
    omega
  | succ d ih =>
    intro retry hd hlt hfail
    have hne : retry ≠ maxR - 1 := by omega
    have hc := hfail retry le_rfl hlt
    rw [node_exec_from, dif_pos hlt, hc]
    simp only [if_neg hne]
    rw [ih (retry + 1) (by omega) (by omega)
      (fun j h1 h2 => hfail j (by omega) h2)]
    have h2 : maxR - (retry + 1) + 1 = maxR - retry := by omega
    simp [h2]

lemma node_exec_from_success {E A : Type} (compute : Nat → Except E A)
    (fallback : E → ExecResult E A) (err : Nat → E) (maxR : Nat) (a : A) :
    ∀ d retry m, m - retry = d → retry ≤ m → m < maxR →
    compute m = Except.ok a →
    (∀ j, retry ≤ j → j < m → compute j = Except.error (err j)) →
    node_exec_from compute fallback maxR retry =
      (ExecResult.value a, m - retry + 1, []) := by
  intro d
  induction d with
  | zero =>
    intro retry m hd hle hlt hok _hfail
    have hm : retry = m := by omega
    subst hm
    rw [node_exec_from, dif_pos hlt, hok]
    simp
  | succ d ih =>
    intro retry m hd hle hlt hok hfail
    have hlt2 : retry < m := by omega
    have hc := hfail retry le_rfl hlt2
    have hne : retry ≠ maxR - 1 := by omega
    rw [node_exec_from, dif_pos (by omega : retry < maxR), hc]
    simp only [if_neg hne]
    rw [ih (retry + 1) m (by omega) (by omega) hlt hok
      (fun j h1 h2 => hfail j (by omega) h2)]
    have h2 : m - (retry + 1) + 1 + 1 = m - retry + 1 := by omega
    simp [h2]

/-- C4: With `max_retries = N ≥ 1`, if `exec` raises on every attempt it is
invoked exactly `N` times and the fallback hook is then invoked exactly
once with the final attempt's exception (the prepared input is the fixed
argument `exec` was closed over); the default fallback re-raises that
exception unchanged.  If `exec` succeeds on attempt `k ≤ N`, its result is
returned immediately, `exec` having run exactly `k` times and the fallback
never. -/
theorem node_retry_semantics {E A : Type} (compute : Nat → Except E A)
    (fb : E → ExecResult E A) (err : Nat → E) (N : Nat) (hN : 1 ≤ N) :
    ((∀ j, j < N → compute j = Except.error (err j)) →
      node_exec compute fb N = (fb (err (N - 1)), N, [err (N - 1)]) ∧
      node_exec compute exec_fallback N =
        (ExecResult.raised (err (N - 1)), N, [err (N - 1)])) ∧
    (∀ k a, 1 ≤ k → k ≤ N →
      (∀ j, j < k - 1 → compute j = Except.error (err j)) →
      compute (k - 1) = Except.ok a →
      node_exec compute fb N = (ExecResult.value a, k, [])) := by
  constructor
  · intro hfail
    constructor
    · have h := node_exec_from_all_fail compute fb err N (N - 1) 0
        (by omega) (by omega) (fun j _ h2 => hfail j h2)
      simpa [node_exec] using h
    · have h := node_exec_from_all_fail compute exec_fallback err N (N - 1) 0
        (by omega) (by omega) (fun j _ h2 => hfail j h2)
      simpa [node_exec, exec_fallback] using h
  · intro k a hk1 hkN hprev hok
    have h := node_exec_from_success compute fb err N a (k - 1) 0 (k - 1)
      (by omega) (by omega) (by omega) hok (fun j _ h2 => hprev j h2)
    simpa [node_exec, show k - 1 + 1 = k by omega] using h

/-- Witness: with `max_retries = 2` and an `exec` that always raises `7`,
the default fallback re-raises `7` after exactly 2 attempts. -/
theorem node_retry_semantics_witness :
    node_exec (fun _ => (Except.error 7 : Except Nat Nat)) exec_fallback 2 =
      (ExecResult.raised 7, 2, [7]) :=
  ((node_retry_semantics (fun _ => (Except.error 7 : Except Nat Nat))
      exec_fallback (fun _ => 7) 2 (by decide)).1 (fun _ _ => rfl)).2

/-- C10: With `max_retries = 0` the `for retry in range(0)` body never
runs, so `_exec` falls off the end and returns `None`: `exec` is never
invoked, the fallback hook is never invoked, and the caller receives the
silent `None` result. -/
theorem node_exec_zero_retries {E A : Type} (compute : Nat → Except E A)
    (fb : E → ExecResult E A) :
    node_exec compute fb 0 = (ExecResult.nothing, 0, []) := by
  rw [node_exec, node_exec_from]
  simp

/-- C1 counterexample: the captured label is the non-null empty string and
an edge labeled exactly `""` exists, yet `get_next_node` does not return
that edge's target: Python's `action or "default"` treats the empty
string like `None`, so the lookup key becomes `"default"`, and with two
edges and no `"default"` edge no rule selects the empty-labeled edge. -/
theorem exact_match_empty_label_cex :
    assocGet [("", 1), ("x", 2)] "" = some 1 ∧
    (get_next_node [("", 1), ("x", 2)] (some "")).1 = none := by
  decide

/-- C1 (amended): for every non-null, non-empty captured action label, an
edge whose label equals the captured label exactly is taken, with
precedence over the single-successor and default fallbacks; a null/absent
captured label — and likewise an empty-string label — is routed exactly
like the literal label `"default"`. -/
theorem exact_match_precedence (succ : List (String × Nat)) (a : String)
    (t : Nat) (ha : a ≠ "") (ht : assocGet succ a = some t) :
    (get_next_node succ (some a)).1 = some t ∧
    (∀ s2 : List (String × Nat),
      (get_next_node s2 none).1 = (get_next_node s2 (some "default")).1) ∧
    ∀ s2 : List (String × Nat),
      (get_next_node s2 (some "")).1 =
        (get_next_node s2 (some "default")).1 := by
  refine ⟨?_, ?_, ?_⟩
  · rw [get_next_node_fst]
    have hkey : route_key (some a) = a := by simp [route_key, ha]
    rw [hkey]
    exact route_pick_exact succ a t ht
  · intro s2
    rw [get_next_node_fst, get_next_node_fst]
    have h1 : route_key none = "default" := rfl
    have h2 : route_key (some "default") = "default" := by decide
    rw [h1, h2]
  · intro s2
    rw [get_next_node_fst, get_next_node_fst]
    have h1 : route_key (some "") = "default" := by decide
    have h2 : route_key (some "default") = "default" := by decide
    rw [h1, h2]

/-- Witness: an exact label match is followed even though a `"default"`
edge is also present. -/
theorem exact_match_precedence_witness :
    (get_next_node [("go", 5), ("default", 9)] (some "go")).1 = some 5 :=
  (exact_match_precedence [("go", 5), ("default", 9)] "go" 5 (by decide)
    (by decide)).1

/-- C2: a unit with exactly one outgoing edge routes to that edge's target
even when the captured action label does not match the edge's label: the
single-successor fallback fires before the default fallback and the
dead-end warning. -/
theorem single_successor_routes (l : String) (t : Nat) (act : Option String)
    (_h : act ≠ some l) : (get_next_node [(l, t)] act).1 = some t := by
  rw [get_next_node_fst]
  exact route_pick_single l t (route_key act)

/-- Witness: the one-edge unit routes to its successor on a foreign label. -/
theorem single_successor_routes_witness :
    (get_next_node [("x", 3)] (some "z")).1 = some 3 :=
  single_successor_routes "x" 3 (some "z") (by decide)

/-- C3: when a unit has edges but none is selected, `get_next_node` warns
naming the unmatched label and the available labels and returns no
successor; with zero edges it returns silently; and the orchestration
loop then terminates normally (no raise) with the unmatched captured
label as the flow's result. -/
theorem flow_dead_end_behavior {V : Type} (g : Nat → GNode V)
    (p sh : List (String × V)) (cur fuel : Nat) :
    (∀ succ act, succ ≠ [] → (get_next_node succ act).1 = none →
      (get_next_node succ act).2 = some ⟨act, assocKeys succ⟩) ∧
    (∀ act, get_next_node [] act = (none, none)) ∧
    ((get_next_node (g cur).successors ((g cur).run p sh).1).1 = none →
      orchLoop g p (fuel + 1) cur sh =
        some (((g cur).run p sh).1, ((g cur).run p sh).2,
          (get_next_node (g cur).successors ((g cur).run p sh).1).2.toList,
          [cur])) := by
  refine ⟨?_, ?_, ?_⟩
  · intro succ act hne h
    rw [get_next_node_fst] at h
    rw [get_next_node_snd, if_pos ⟨h, hne⟩]
  · intro act
    simp [get_next_node, route_pick, assocGet]
  · intro h
    simp only [orchLoop, h]

/-- Witness: a unit with edges `"x"`, `"y"` and captured label `"z"` ends
the flow with the warning and result `"z"`. -/
theorem flow_dead_end_witness :
    orchLoop exDeadEnd [] 1 0 ([] : List (String × String)) =
      some (some "z", [], [⟨some "z", ["x", "y"]⟩], [0]) :=
  (flow_dead_end_behavior exDeadEnd [] [] 0 0).2.2 (by decide)

/-- C5: running a Flow whose start unit is unset raises immediately: the
result is the `ValueError`, the shared context is returned untouched, and
no node was visited (no lifecycle step ran). -/
theorem flow_no_start_raises {V : Type} (g : Nat → GNode V)
    (p sh : List (String × V)) (fuel : Nat) :
    flow_run g none p sh fuel =
      RunResult.raised "Start node not set" sh [] :=
  rfl

/-- C8: parameter propagation is wholesale replacement: after `set_params`
the unit's parameter mapping is the flow's mapping — every key reads as
in the flow's mapping, and a key absent from the flow's mapping reads as
absent even if the unit previously had it.  (`Flow._orch` calls
`current.set_params(p)` with the flow's parameter copy before every
`_run`, line 158.) -/
theorem set_params_overwrites {V : Type} (n : PNode V)
    (p : List (String × V)) :
    (set_params n p).params = p ∧
    (∀ k, assocGet (set_params n p).params k = assocGet p k) ∧
    (∀ k, assocHas p k = false →
      assocGet (set_params n p).params k = none) := by
  refine ⟨rfl, fun k => rfl, fun k hk => ?_⟩
  exact assocGet_none_of_not_has p k hk

/-- Witness: a parameter present before propagation but absent from the
flow's mapping is gone after propagation. -/
theorem set_params_overwrites_witness :
    assocGet (set_params ⟨[("old", 1)], []⟩ [("fresh", 2)]).params "old" =
      none :=
  (set_params_overwrites ⟨[("old", 1)], []⟩ [("fresh", 2)]).2.2 "old"
    (by decide)

/-- C9: registering an edge under an already-used label surfaces the
warning (and only then) and replaces the previous target; other labels
are untouched and edge-mapping keys stay unique, so only the latest
target registered under a label is reachable through it. -/
theorem next_edge_registration (succ : List (String × Nat)) (a : String)
    (t : Nat) :
    (node_next succ a t).2 = assocHas succ a ∧
    assocGet (node_next succ a t).1 a = some t ∧
    (∀ b, b ≠ a → assocGet (node_next succ a t).1 b = assocGet succ b) ∧
    ((assocKeys succ).Nodup → (assocKeys (node_next succ a t).1).Nodup) := by
  refine ⟨rfl, assocGet_assocSet_self succ a t, ?_, ?_⟩
  · intro b hb
    exact assocGet_assocSet_ne succ a b t hb
  · intro h
    exact nodup_keys_assocSet succ a t h

/-- Witness: re-registering `"default"` replaces the target, warns, and
keeps the keys unique. -/
theorem next_edge_registration_witness :
    assocGet (node_next [("default", 1)] "default" 2).1 "default" = some 2 ∧
    (node_next [("default", 1)] "default" 2).2 = true ∧
    (assocKeys (node_next [("default", 1)] "default" 2).1).Nodup :=
  ⟨(next_edge_registration [("default", 1)] "default" 2).2.1,
   ((next_edge_registration [("default", 1)] "default" 2).1).trans (by decide),
   (next_edge_registration [("default", 1)] "default" 2).2.2.2 (by decide)⟩

/-- C6: `Flow.prep` is the identity and `Flow.post` returns the inner
orchestration's result unchanged, so a flow run — direct (`flow_run`
completes exactly when and how `_orch` does) or as a node inside an outer
graph (`flowAsNode`) — returns the last action label of its inner graph;
and an outer orchestration step at a sub-flow node runs the whole inner
graph first, continuing from the inner run's final shared state. -/
theorem flow_pass_through {V : Type} (g inner : Nat → GNode V)
    (s innerStart innerFuel fuel : Nat) (outerSucc : List (String × Nat))
    (p sh : List (String × V)) :
    (∀ a sh2 ws vs,
      flow_run g (some s) p sh fuel = RunResult.done a sh2 ws vs ↔
        orchLoop g p fuel s sh = some (a, sh2, ws, vs)) ∧
    (∀ a sh2 ws vs,
      orchLoop inner p innerFuel innerStart sh = some (a, sh2, ws, vs) →
        (flowAsNode inner innerStart innerFuel outerSucc).run p sh =
          (a, sh2)) ∧
    (∀ a sh2 ws vs j,
      g s = flowAsNode inner innerStart innerFuel outerSucc →
      orchLoop inner p innerFuel innerStart sh = some (a, sh2, ws, vs) →
      (get_next_node outerSucc a).1 = some j →
      orchLoop g p (fuel + 1) s sh =
        match orchLoop g p fuel j sh2 with
        | none => none
        | some (a2, sh3, ws2, vs2) =>
          some (a2, sh3,
            (get_next_node outerSucc a).2.toList ++ ws2, s :: vs2)) := by
  refine ⟨?_, ?_, ?_⟩
  · intro a sh2 ws vs
    simp only [flow_run]
    cases horch : orchLoop g p fuel s sh with
    | none => simp
    | some q =>
      obtain ⟨a3, sh3, ws3, vs3⟩ := q
      simp
  · intro a sh2 ws vs h
    simp [flowAsNode, h]
  · intro a sh2 ws vs j hg hin hroute
    have hrun : (g s).run p sh = (a, sh2) := by
      rw [hg]
      simp [flowAsNode, hin]
    have hsucc : (g s).successors = outerSucc := by
      rw [hg]
      rfl
    simp only [orchLoop, hrun, hsucc, hroute]

/-- Witness: a two-node inner flow wrapped as a node inside an outer graph
runs to completion, its final shared state and action feeding the outer
step that follows. -/
theorem flow_pass_through_witness :
    orchLoop exOuter [] 2 0 ([] : List (String × String)) =
      some (some "end", [("k", "v")], [], [0, 1]) :=
  (flow_pass_through exOuter exInner 0 0 2 1 [("subdone", 1)] [] []).2.2
    (some "subdone") [("k", "v")] [] [0, 1] 1 rfl rfl (by decide)

/-- C7: on a graph admitting a ranking function that strictly decreases
along every outgoing edge (the reachable sub-graph is finite and
acyclic), the orchestration loop terminates: any fuel exceeding the
current node's rank is never exhausted, because every routed successor is
one of the current unit's edge targets. -/
theorem acyclic_flow_terminates {V : Type} (g : Nat → GNode V)
    (p : List (String × V)) (rank : Nat → Nat)
    (hrank : ∀ i l2 j, (l2, j) ∈ (g i).successors → rank j < rank i) :
    ∀ fuel cur sh, rank cur < fuel → (orchLoop g p fuel cur sh).isSome := by
  intro fuel
  induction fuel with
  | zero =>
    intro cur sh h
    omega
  | succ f ih =>
    intro cur sh hcur
    cases hroute : (get_next_node (g cur).successors ((g cur).run p sh).1).1 with
    | none =>
      simp [orchLoop, hroute]
    | some nxt =>
      obtain ⟨l2, hl2⟩ := route_pick_mem _ _ _
        (by rw [← get_next_node_fst]; exact hroute)
      have hlt : rank nxt < rank cur := hrank cur l2 nxt hl2
      have hrec := ih nxt (((g cur).run p sh).2) (by omega)
      simp only [orchLoop, hroute]
      cases hrec2 : orchLoop g p f nxt (((g cur).run p sh).2) with
      | none =>
        rw [hrec2] at hrec
        simp at hrec
      | some q =>
        obtain ⟨a, sh2, ws, vs⟩ := q
        simp [hrec2]

/-- Witness: the two-node chain `exChain`, ranked by `exRank`, terminates
with fuel 2 from node 0. -/
theorem acyclic_flow_terminates_witness :
    (orchLoop exChain [] 2 0 ([] : List (String × String))).isSome :=
  acyclic_flow_terminates exChain [] exRank
    (by
      intro i l2 j hmem
      by_cases hi : i = 0
      · subst hi
        simp [exChain] at hmem
        rw [hmem.2]
        decide
      · simp [exChain, hi] at hmem)
    2 0 [] (by decide)
